import Mathlib

/-!
Verification of the RGB-LED-Strip-Controller control engine.

The controller exists in two revisions:
* v1 (`RGB_LED_Strip_Controller.ino`, 2017): triangular-ramp HSB <-> RGB
  converter, logarithmic brightness/RGB edit steps, NEC repeat-frame
  debouncing, variable-hue animation.
* v2.1 (second sketch, 2022): FastLED-rainbow-style converter plus a
  two-tier PWM intensity synthesizer driven from timer-overflow ISRs.

Arithmetic on the Arduino is IEEE single-precision float; here it is
embedded over `ℚ` (exact arithmetic).  Rational division is total with
`x / 0 = 0`; every theorem below either guards its divisions away from
zero or is explicitly robust to that convention.  `unsigned int` /
`unsigned long` arithmetic is embedded as `ℕ` with explicit `% 2^16` /
`% 2^32` where wrap-around matters, and C bitwise masks are kept as `&&&`.
-/

namespace LedStrip

/-! ## Defined constants (v1 sketch, "Defined Constants" section) -/

def MAX_RGB : ℚ := 255
def MIN_RGB : ℚ := 1
def MIN_BRIGHT : ℚ := MIN_RGB / 3 / MAX_RGB
def MIN_STEP_TIME : ℕ := 100
def MAX_STEP_TIME : ℕ := 10000
def HUE_STEPS : ℤ := 400
def BRIGHT_STEPS : ℚ := 60
def RGB_STEPS : ℚ := 60
def SAT_STEPS : ℚ := 50

/-- Result of `HSBtoRGB`: the by-reference `bright` parameter as left by the
call, plus the three channel values written through `red`, `green`, `blue`. -/
structure RGBout where
  bright : ℚ
  red : ℚ
  green : ℚ
  blue : ℚ
  deriving Repr, DecidableEq

/-- Result of `RGBtoHSB`: the by-reference `hue`, `sat`, `bright` as left by
the call. -/
structure HSBout where
  hue : ℚ
  sat : ℚ
  bright : ℚ
  deriving Repr, DecidableEq

/-! ## v1 `HSBtoRGB` (RGB_LED_Strip_Controller.ino lines 475-532)

Transcribed assignment by assignment.  `hue` is first clamped into [0,1]
by the two validation `if`s, then scaled by 3; the three ramps produce the
pure hue; the desaturation line blends each channel toward `MAX_RGB/3`;
the cap `if` lowers `bright` so no channel can exceed the ceiling; finally
each channel is multiplied by `bright * 3`. -/

/-- The two validation `if`s at the top of `HSBtoRGB`. -/
def clampHue (h : ℚ) : ℚ :=
  let h1 := if h < 0 then 0 else h
  if h1 > 1 then 1 else h1

/-- `hue *= 3.0` after validation. -/
def hsbT (h : ℚ) : ℚ := clampHue h * 3

/-- Red ramp of the pure hue (argument is the scaled hue `t ∈ [0,3]`). -/
def pureRed (t : ℚ) : ℚ :=
  if 0 ≤ t ∧ t ≤ 1 then MAX_RGB / 1 * (t - 0)
  else if 1 < t ∧ t ≤ 2 then MAX_RGB - MAX_RGB / 1 * (t - 1)
  else 0

/-- Green ramp of the pure hue. -/
def pureGreen (t : ℚ) : ℚ :=
  if 1 ≤ t ∧ t ≤ 2 then MAX_RGB / 1 * (t - 1)
  else if 2 < t ∧ t ≤ 3 then MAX_RGB - MAX_RGB / 1 * (t - 2)
  else 0

/-- Blue ramp of the pure hue. -/
def pureBlue (t : ℚ) : ℚ :=
  if 2 ≤ t ∧ t ≤ 3 then MAX_RGB / 1 * (t - 2)
  else if 0 ≤ t ∧ t ≤ 1 then MAX_RGB - MAX_RGB / 1 * (t - 0)
  else 0

/-- Desaturation line `c = (1 - sat) * MAX_RGB / 3.0 + sat * c`. -/
def desat (s c : ℚ) : ℚ := (1 - s) * MAX_RGB / 3 + s * c

/-- Desaturated red channel for hue `h` and saturation `s`. -/
def rDesat (h s : ℚ) : ℚ := desat s (pureRed (hsbT h))

/-- Desaturated green channel. -/
def gDesat (h s : ℚ) : ℚ := desat s (pureGreen (hsbT h))

/-- Desaturated blue channel. -/
def bDesat (h s : ℚ) : ℚ := desat s (pureBlue (hsbT h))

/-- The brightness cap: `if (bright > MAX_RGB / max(red, max(green, blue)) / 3.0)
bright = ...` applied to the desaturated channels. -/
def capBright (r g b bright : ℚ) : ℚ :=
  if bright > MAX_RGB / max r (max g b) / 3 then MAX_RGB / max r (max g b) / 3
  else bright

/-- The value left in the by-reference `bright` parameter by `HSBtoRGB`. -/
def brightCapped (h s bright : ℚ) : ℚ :=
  capBright (rDesat h s) (gDesat h s) (bDesat h s) bright

/-- v1 `HSBtoRGB(hue, sat, & bright, & red, & green, & blue)`. -/
def HSBtoRGB (h s bright : ℚ) : RGBout :=
  ⟨brightCapped h s bright,
   rDesat h s * (brightCapped h s bright * 3),
   gDesat h s * (brightCapped h s bright * 3),
   bDesat h s * (brightCapped h s bright * 3)⟩

/-! ## v1 `RGBtoHSB` (RGB_LED_Strip_Controller.ino lines 535-581) -/

/-- `bright = (red + green + blue) / MAX_RGB / 3.0`. -/
def brightOf (r g b : ℚ) : ℚ := (r + g + b) / MAX_RGB / 3

/-- Renormalization `red *= MAX_RGB / sum` guarded by `sum > 0`. -/
def normalize (sum c : ℚ) : ℚ := if sum > 0 then c * (MAX_RGB / sum) else c

def normR (r g b : ℚ) : ℚ := normalize (r + g + b) r
def normG (r g b : ℚ) : ℚ := normalize (r + g + b) g
def normB (r g b : ℚ) : ℚ := normalize (r + g + b) b

/-- `sat = (MAX_RGB/3 - min(red, min(green, blue))) / (MAX_RGB/3)` applied to
the renormalized channels. -/
def satOf (r g b : ℚ) : ℚ := (MAX_RGB / 3 - min r (min g b)) / (MAX_RGB / 3)

def satN (r g b : ℚ) : ℚ := satOf (normR r g b) (normG r g b) (normB r g b)

/-- Recovery of a fully saturated channel,
`c = (c - MAX_RGB/3 + MAX_RGB/3 * sat) / sat`. -/
def unsat (s c : ℚ) : ℚ := (c - MAX_RGB / 3 + MAX_RGB / 3 * s) / s

/-- The three-way branch that zeroes the minimum (desaturating) channel and
recovers the other two.  The final `else` arm is the C fall-through where no
branch fires (unreachable, since some channel is minimal). -/
def removeMin (s r g b : ℚ) : ℚ × ℚ × ℚ :=
  if r ≤ min g b then (0, unsat s g, unsat s b)
  else if g ≤ min r b then (unsat s r, 0, unsat s b)
  else if b ≤ min g r then (unsat s r, unsat s g, 0)
  else (r, g, b)

def puresOf (r g b : ℚ) : ℚ × ℚ × ℚ :=
  removeMin (satN r g b) (normR r g b) (normG r g b) (normB r g b)

/-- The three sequential (non-exclusive) `if`s that reverse the ramp
interpolation; a later matching `if` overwrites an earlier one, and if none
matches the incoming `hue` is kept (the caller then divides by 3). -/
def hueFromPure (hue0 r g b : ℚ) : ℚ :=
  let h1 := if r ≥ max g b then (if b > g then r / MAX_RGB else 2 - r / MAX_RGB)
            else hue0
  let h2 := if g ≥ max r b then (if r > b then 1 + g / MAX_RGB else 3 - g / MAX_RGB)
            else h1
  if b ≥ max g r then (if g > r then 2 + b / MAX_RGB else 0 + r / MAX_RGB)
  else h2

/-- v1 `RGBtoHSB(& hue, & sat, & bright, red, green, blue)`.  `hue0` is the
value held in the caller's `hue` variable when the call is made. -/
def RGBtoHSB (hue0 r g b : ℚ) : HSBout :=
  ⟨if satN r g b > 0 ∧ brightOf r g b > 0 then
      hueFromPure hue0 (puresOf r g b).1 (puresOf r g b).2.1 (puresOf r g b).2.2 / 3
    else hue0,
   satN r g b,
   brightOf r g b⟩

/-! ## v2.1 `RGBtoHSB` (second sketch, lines 518-583)

The v2 converter takes `hue`, `sat`, `bright` by reference but assigns only
`hue` and `sat`; `bright` is left untouched.  Two C parsing quirks are kept
faithfully: `redPure == 0 & greenPure == 0.` parses as
`(redPure == 0) & (greenPure == 0.)`, while `greenPure == bluePure == 0.`
parses as `(greenPure == bluePure) == 0.`, i.e. it tests
`greenPure ≠ bluePure` (and likewise for the third arm).  The trailing
`else` arms of the branch chains model the C fall-through that leaves the
variables unchanged (for the pures, the C locals are uninitialized there,
but some channel is always minimal so that arm is unreachable). -/

/-- First branch chain of v2 `RGBtoHSB`: computes `sat` and the fully
saturated components `(redPure, greenPure, bluePure)` from the channel that
is minimal. -/
def v2SatPures (sat0 red green blue : ℚ) : ℚ × ℚ × ℚ × ℚ :=
  if red ≤ min green blue then
    let s := 1 - red / MAX_RGB
    (s, 0, (green + 255 * s - 255) / s, (blue + 255 * s - 255) / s)
  else if green ≤ min red blue then
    let s := 1 - green / MAX_RGB
    (s, (red + 255 * s - 255) / s, 0, (blue + 255 * s - 255) / s)
  else if blue ≤ min red green then
    let s := 1 - blue / MAX_RGB
    (s, (red + 255 * s - 255) / s, (green + 255 * s - 255) / s, 0)
  else (sat0, red, green, blue)

/-- v2.1 `RGBtoHSB(& hue, & sat, & bright, red, green, blue)`. -/
def RGBtoHSB2 (hue0 sat0 bright0 red green blue : ℚ) : HSBout :=
  let p := v2SatPures sat0 red green blue
  let s := p.1
  let redPure := p.2.1
  let greenPure := p.2.2.1
  let bluePure := p.2.2.2
  let hue1 :=
    if redPure = 0 ∧ greenPure = 0 then 160
    else if greenPure ≠ bluePure then 0
    else if bluePure ≠ redPure then 96
    else hue0
  let hue2 :=
    if bluePure ≤ min redPure greenPure then
      (if redPure / greenPure ≥ 2 then
         255 * 32 / (255 - 170) / (redPure / greenPure + 1)
       else if red / green ≥ 1 then 64 / (redPure / greenPure)
       else 64 + (170 - 170 * (redPure / greenPure)) /
              (256 / 96 * (redPure / greenPure) + 170 / 32))
    else if redPure < min bluePure greenPure then
      (if greenPure / bluePure > 2 then
         96 + 255 / (greenPure / bluePure * 85 / (128 - 96) + (255 - 170) / (128 - 96))
       else 128 + (170 - 85 * greenPure / bluePure) /
              (170 / (160 - 128) + greenPure / bluePure * (255 - 85) / (160 - 128)))
    else if greenPure < min redPure bluePure then
      160 + (256 - 160) / (1 + bluePure / redPure)
    else hue1
  let hue3 := if hue2 = 0 then 1 / 10 else hue2
  let hue4 := if hue3 ≥ 255 then 1 / 10 else hue3
  ⟨hue4, s, bright0⟩

/-! ## Key event state machine (v1 `loop()`, lines 192-212)

State is the pair of globals `lastKey` / `repeatCount`; `keyTimer` is
abstracted into an explicit `idleGap` event, which models the main loop
observing `millis() - keyTimer > 500`.  A `concrete` frame is a decoded
NEC (protocolNum 1) frame carrying a key code; `repeatF` is the reserved
`0xffffffff` repeat sentinel.  Each step returns the updated state and
`some firedKey` when the command dispatch switch runs. -/

def REPEAT_SENTINEL : ℕ := 0xffffffff

structure KeyState where
  lastKey : ℕ
  repeatCount : ℕ
  deriving Repr, DecidableEq

inductive Frame where
  | concrete (code : ℕ)
  | repeatF
  | idleGap
  deriving Repr, DecidableEq

/-- One traversal of the frame-handling part of `loop()` for one event.
On a repeat frame, `if (repeatCount++ > 5)` compares the old count and then
increments; when it fires, `MyDecoder.value` is replaced by `lastKey` and
falls through to the dispatch test
`value != 0x00000000 && value != 0xffffffff`. -/
def keyStep (s : KeyState) : Frame → KeyState × Option ℕ
  | .idleGap => (⟨0, 0⟩, none)
  | .repeatF =>
    let v := if s.repeatCount > 5 then s.lastKey else REPEAT_SENTINEL
    let rc := s.repeatCount + 1
    if v ≠ 0 ∧ v ≠ REPEAT_SENTINEL then ((⟨v &&& 0xffff, rc⟩ : KeyState), some (v &&& 0xffff))
    else ((⟨s.lastKey, rc⟩ : KeyState), none)
  | .concrete c =>
    if c ≠ 0 ∧ c ≠ REPEAT_SENTINEL then
      ((⟨c &&& 0xffff, s.repeatCount⟩ : KeyState), some (c &&& 0xffff))
    else (s, none)

/-- Number of commands fired while processing a list of events. -/
def runFires (s : KeyState) : List Frame → ℕ
  | [] => 0
  | f :: fs => (if (keyStep s f).2.isSome then 1 else 0) + runFires (keyStep s f).1 fs

/-! ## Intensity synthesizer ISRs (v2.1, lines 634-660) -/

/-- C cast `int(x)` on a float: truncation toward zero. -/
def floatToInt (x : ℚ) : ℤ := if 0 ≤ x then ⌊x⌋ else -⌊-x⌋

/-- C cast `byte(i)`: the low 8 bits. -/
def toByte (x : ℚ) : ℤ := floatToInt x % 256

/-- `ISR(TIMER1_OVF_vect)`: increments and masks `pwmCounter1`, then either
renders `red`/`green` into `OCR1A`/`OCR1B` or gates them off.  Returns
`(pwmCounter1', OCR1A, OCR1B)`. -/
def isr1 (pwmCounter1 pwmCyclesON : ℕ) (red green : ℚ) : ℕ × ℤ × ℤ :=
  let c := (pwmCounter1 + 1) &&& 0x0007
  if c ≤ pwmCyclesON then (c, toByte red, toByte green) else (c, 0, 0)

/-- `ISR(TIMER2_OVF_vect)`: same for `pwmCounter2` and the blue channel.
Returns `(pwmCounter2', OCR2A)`. -/
def isr2 (pwmCounter2 pwmCyclesON : ℕ) (blue : ℚ) : ℕ × ℤ :=
  let c := (pwmCounter2 + 1) &&& 0x0007
  if c ≤ pwmCyclesON then (c, toByte blue) else (c, 0)

/-! ## Variable-hue key and edit handlers (v1 `loop()` switch) -/

/-- `case VAR_HUE` (v1 lines 228-236): if already varying, double
`hueStepTime` (a 32-bit `unsigned long`) and blink; otherwise start varying.
Returns `(variableHue', hueStepTime', blinked)`. -/
def varHuePress (variableHue : Bool) (hueStepTime : ℕ) : Bool × ℕ × Bool :=
  if variableHue then (true, hueStepTime * 2 % 2 ^ 32, true)
  else (true, hueStepTime, false)

/-- `hueStepTime` after `k` further presses of VAR_HUE with varying active. -/
def varHueIter : ℕ → ℕ → ℕ
  | 0, t => t
  | k + 1, t => (varHuePress true (varHueIter k t)).2.1

/-- `case NEXT_HUE` (v1 lines 241-252): conditional double-size step, then
wrap above 1.0 to 0.0. -/
def nextHuePress (h : ℚ) : ℚ :=
  let h1 := if h > 1 ∧ h < 2 then h + 1 / (HUE_STEPS : ℚ) * 2 else h + 1 / (HUE_STEPS : ℚ)
  if h1 > 1 then 0 else h1

/-- `case PREV_HUE` (v1 lines 257-268).  The wrap test `hue < 1 / HUE_STEPS`
divides the int constants 1 and 400, so the threshold is 0. -/
def prevHuePress (h : ℚ) : ℚ :=
  let h1 := if h > 1 ∧ h < 2 then h - 1 / (HUE_STEPS : ℚ) * 2 else h - 1 / (HUE_STEPS : ℚ)
  if h1 < (((1 : ℤ) / HUE_STEPS : ℤ) : ℚ) then 1 else h1

/-- The variable-hue animation step (v1 lines 446-461), identical stepping
code to NEXT_HUE. -/
def varyHueTick (h : ℚ) : ℚ :=
  let h1 := if h > 1 ∧ h < 2 then h + 1 / (HUE_STEPS : ℚ) * 2 else h + 1 / (HUE_STEPS : ℚ)
  if h1 > 1 then 0 else h1

/-- `case DESATURATE` (v1 lines 271-278): one step toward white; at the
floor, clamp to 0 and blink.  Returns `(sat', blinked)`. -/
def desatPress (s : ℚ) : ℚ × Bool :=
  let s1 := s - 1 / SAT_STEPS
  if s1 < 0 then (0, true) else (s1, false)

/-- `case SATURATE` (v1 lines 281-288): one step toward the pure hue; at the
ceiling, clamp to 1 and blink. -/
def satPress (s : ℚ) : ℚ × Bool :=
  let s1 := s + 1 / SAT_STEPS
  if s1 > 1 then (1, true) else (s1, false)

/-- `case DIM` (v1 lines 301-307).  The logarithmic factor
`pow(10, log10(1/MAX_RGB)/BRIGHT_STEPS) = 255^(-1/60)` is irrational, so it
is taken as a parameter `f` with `0 < f < 1`.  `HSBtoRGB` is called on the
stepped brightness (possibly capping it through the reference), then the
result is floored at `MIN_BRIGHT`.  No blink occurs on this path. -/
def dimPress (h s f bright : ℚ) : ℚ × Bool :=
  let b1 := bright * f
  let b2 := brightCapped h s b1
  (if b2 < MIN_BRIGHT then MIN_BRIGHT else b2, false)

/-- `case BRIGHTEN` (v1 lines 311-320): kickstart at `MIN_BRIGHT`, divide by
the same factor `f`, convert, and blink if some channel reached `MAX_RGB`. -/
def brightenPress (h s f bright : ℚ) : ℚ × Bool :=
  let b0 := if bright < MIN_BRIGHT then MIN_BRIGHT else bright
  let o := HSBtoRGB h s (b0 / f)
  (o.bright, if o.red = MAX_RGB ∨ o.green = MAX_RGB ∨ o.blue = MAX_RGB then true else false)

/-- `case INCR_RED` / `INCR_GREEN` / `INCR_BLUE` (v1 lines 324-368): channel
kickstart below `MIN_RGB`, else divide by the RGB factor `f`; at the ceiling
clamp to `MAX_RGB` and blink.  Returns `(channel', blinked)`. -/
def incrPress (f c : ℚ) : ℚ × Bool :=
  let c1 := if c < MIN_RGB then MIN_RGB else c / f
  if c1 ≥ MAX_RGB then (MAX_RGB, true) else (c1, false)

/-- `case DECR_RED` / `DECR_GREEN` / `DECR_BLUE` (v1 lines 369-395):
multiply by the RGB factor `f`; below `MIN_RGB` set the channel to 0 and
blink. -/
def decrPress (f c : ℚ) : ℚ × Bool :=
  let c1 := c * f
  if c1 < MIN_RGB then (0, true) else (c1, false)

/-! ## Supporting lemmas -/

theorem land_seven (n : ℕ) : n &&& 7 = n % 8 := by
  have h := Nat.and_pow_two_sub_one_eq_mod n 3
  norm_num at h
  exact h

theorem land_ffff (n : ℕ) : n &&& 0xffff = n % 65536 := by
  have h := Nat.and_pow_two_sub_one_eq_mod n 16
  norm_num at h
  exact h

theorem land_ffff_of_lt {n : ℕ} (h : n < 65536) : n &&& 0xffff = n := by
  rw [land_ffff, Nat.mod_eq_of_lt h]

/-- Repeat sentinels from state `⟨k, c⟩` with `k` a stored valid key: the
first `6 - c` are suppressed, every later one re-fires `k`. -/
theorem runFires_repeats {k : ℕ} (hk0 : k ≠ 0) (hk1 : k < 65536) :
    ∀ n c, runFires ⟨k, c⟩ (List.replicate n Frame.repeatF ++ [Frame.idleGap]) = n - (6 - c) := by
  intro n
  induction n with
  | zero =>
    intro c
    simp [runFires, keyStep]
  | succ n ih =>
    intro c
    have hkS : k ≠ REPEAT_SENTINEL := by
      intro hEq
      rw [hEq] at hk1
      norm_num [REPEAT_SENTINEL] at hk1
    rw [List.replicate_succ, List.cons_append]
    by_cases h5 : c > 5
    · have hstep : keyStep ⟨k, c⟩ Frame.repeatF = (⟨k, c + 1⟩, some k) := by
        simp only [keyStep, if_pos h5]
        rw [if_pos ⟨hk0, hkS⟩, land_ffff_of_lt hk1]
      rw [runFires, hstep]
      norm_num [ih (c + 1)]
      omega
    · have hstep : keyStep ⟨k, c⟩ Frame.repeatF = (⟨k, c + 1⟩, none) := by
        simp only [keyStep, if_neg h5]
        rw [if_neg (by simp)]
      rw [runFires, hstep]
      norm_num [ih (c + 1)]
      omega

/-- Processing a valid concrete key fires it and stores it without touching
the repeat count. -/
theorem keyStep_concrete {k : ℕ} (hk0 : k ≠ 0) (hk1 : k < 65536) (s : KeyState) :
    keyStep s (Frame.concrete k) = (⟨k, s.repeatCount⟩, some k) := by
  have hkS : k ≠ REPEAT_SENTINEL := by
    intro hEq
    rw [hEq] at hk1
    norm_num [REPEAT_SENTINEL] at hk1
  simp only [keyStep]
  rw [if_pos ⟨hk0, hkS⟩, land_ffff_of_lt hk1]

/-! ## Claim C2 -/

/-- C2: in the v1 converter, for every RGB input at a hue singularity — all
three channels equal (so the computed `sat` is 0) and in particular all
zero (computed `bright` 0) — `RGBtoHSB` returns the caller's hue unchanged,
computing only `sat` and `bright` from the input. -/
theorem c2_hue_preserved_at_singularity (h v : ℚ) (hv : 0 ≤ v) :
    (RGBtoHSB h v v v).hue = h := by
  rcases eq_or_lt_of_le hv with hv0 | hv0
  · have hb : brightOf v v v = 0 := by
      rw [← hv0]
      norm_num [brightOf]
    simp only [RGBtoHSB, hb]
    rw [if_neg (by simp)]
  · have hvne : v ≠ 0 := ne_of_gt hv0
    have hsum : v + v + v > 0 := by linarith
    have hnorm : normalize (v + v + v) v = 85 := by
      rw [normalize, if_pos hsum, MAX_RGB]
      field_simp
      ring
    have hsat : satN v v v = 0 := by
      rw [satN, normR, normG, normB, hnorm, satOf]
      norm_num [MAX_RGB]
    simp only [RGBtoHSB, hsat]
    rw [if_neg (by norm_num)]

/-- Witness for C2 at `hue = 3/10`, gray input `(77,77,77)`. -/
theorem c2_witness : (RGBtoHSB (3/10) 77 77 77).hue = 3/10 :=
  c2_hue_preserved_at_singularity (3/10) 77 (by norm_num)

/-- C2 counterexample: the claim also cites the v2.1 converter, which does
NOT preserve hue on the all-zero input: it overwrites the caller's hue
(here 1/2) — with exact arithmetic the first inverse branch sets it to 160
and the fall-through chain then lands on 96; on the AVR the same path
produces a NaN via `0./0.`.  Either way the stored hue is destroyed. -/
theorem c2_v2_all_zero_overwrites_hue :
    (RGBtoHSB2 (1/2) (9/10) (1/4) 0 0 0).hue ≠ 1/2 := by
  norm_num [RGBtoHSB2, v2SatPures, MAX_RGB]

/-! ## Claim C5 -/

/-- C5: one concrete command, then `n` repeat sentinels inside the idle
window, then silence.  Below the threshold exactly one command fires; past
it, one initial fire plus one per sentinel after the sixth (the sentinel
that drives `repeatCount` past 5). -/
theorem c5_repeat_debounce (k n : ℕ) (hk0 : k ≠ 0) (hk1 : k < 65536) :
    (n < 5 →
      runFires ⟨0, 0⟩ (Frame.concrete k ::
        (List.replicate n Frame.repeatF ++ [Frame.idleGap])) = 1) ∧
    (5 < n →
      runFires ⟨0, 0⟩ (Frame.concrete k ::
        (List.replicate n Frame.repeatF ++ [Frame.idleGap])) = 1 + (n - 6)) := by
  have hrun : runFires ⟨0, 0⟩ (Frame.concrete k ::
      (List.replicate n Frame.repeatF ++ [Frame.idleGap])) = 1 + (n - 6) := by
    rw [runFires, keyStep_concrete hk0 hk1]
    norm_num [runFires_repeats hk0 hk1 n 0]
  refine ⟨fun h5 => ?_, fun _ => hrun⟩
  rw [hrun]
  omega

/-- Witness for C5 at key `0x30cf` with `n = 9` sentinels: fires `1 + 3`. -/
theorem c5_witness :
    runFires ⟨0, 0⟩ (Frame.concrete 0x30cf ::
      (List.replicate 9 Frame.repeatF ++ [Frame.idleGap])) = 1 + (9 - 6) :=
  (c5_repeat_debounce 0x30cf 9 (by norm_num) (by norm_num)).2 (by norm_num)

/-! ## Claim C6 -/

/-- C6: an idle gap longer than 500 ms resets `repeatCount` and `lastKey`
from any state, and the next concrete command — even one equal to the
stored `lastKey` — fires exactly once, with up to six following sentinels
suppressed rather than continuing a repeat. -/
theorem c6_idle_reset (s : KeyState) (k n : ℕ) (hk0 : k ≠ 0) (hk1 : k < 65536)
    (hn : n ≤ 6) :
    (keyStep s Frame.idleGap).1 = ⟨0, 0⟩ ∧
    runFires s (Frame.idleGap :: Frame.concrete k ::
      (List.replicate n Frame.repeatF ++ [Frame.idleGap])) = 1 := by
  refine ⟨rfl, ?_⟩
  rw [runFires]
  have hgap : keyStep s Frame.idleGap = (⟨0, 0⟩, none) := rfl
  rw [hgap]
  rw [runFires, keyStep_concrete hk0 hk1]
  norm_num [runFires_repeats hk0 hk1 n 0]
  omega

/-- Witness for C6: from a mid-repeat state `⟨k, 99⟩`, after an idle gap the
same key `k = 0x30cf` fires exactly once even with 6 sentinels behind it. -/
theorem c6_witness :
    (keyStep ⟨0x30cf, 99⟩ Frame.idleGap).1 = ⟨0, 0⟩ ∧
    runFires ⟨0x30cf, 99⟩ (Frame.idleGap :: Frame.concrete 0x30cf ::
      (List.replicate 6 Frame.repeatF ++ [Frame.idleGap])) = 1 :=
  c6_idle_reset ⟨0x30cf, 99⟩ 0x30cf 6 (by norm_num) (by norm_num) (by norm_num)

/-! ## Claim C8 -/

/-- C8: each timer-overflow ISR advances its free-running counter modulo 8;
whenever the counter is at most `pwmCyclesON` the output-compare register
receives the channel's current target value (`byte(int(channel))`), and
otherwise it receives 0, gating the channel off for that sub-cycle. -/
theorem c8_isr_gating (c lvl : ℕ) (red green blue : ℚ) :
    isr1 c lvl red green =
      ((c + 1) % 8,
       if (c + 1) % 8 ≤ lvl then toByte red else 0,
       if (c + 1) % 8 ≤ lvl then toByte green else 0) ∧
    isr2 c lvl blue =
      ((c + 1) % 8, if (c + 1) % 8 ≤ lvl then toByte blue else 0) := by
  constructor
  · show (if (c + 1) &&& 0x0007 ≤ lvl then _ else _) = _
    rw [show (0x0007 : ℕ) = 7 from rfl, land_seven]
    split_ifs <;> rfl
  · show (if (c + 1) &&& 0x0007 ≤ lvl then _ else _) = _
    rw [show (0x0007 : ℕ) = 7 from rfl, land_seven]
    split_ifs <;> rfl

/-! ## Claim C9 -/

/-- C9 counterexample: starting from the initial step time
`MIN_STEP_TIME = 100` ms with the animation enabled, seven further VAR_HUE
presses drive `hueStepTime` to 12800 ms, strictly above
`MAX_STEP_TIME = 10000` — the claimed ceiling is never enforced (the code
never reads `MAX_STEP_TIME`). -/
theorem c9_ceiling_violated :
    varHueIter 7 MIN_STEP_TIME = 12800 ∧ MAX_STEP_TIME < 12800 := by
  constructor
  · rfl
  · decide

/-- C9 amended: while the animation is enabled each VAR_HUE press doubles
`hueStepTime` as a 32-bit unsigned value, with no floor or ceiling applied;
`k` presses multiply it by `2^k` modulo `2^32`, so it can exceed
`MAX_STEP_TIME` (and eventually wrap). -/
theorem c9_doubling_unbounded (k t : ℕ) (ht : t < 2 ^ 32) :
    varHueIter k t = t * 2 ^ k % 2 ^ 32 := by
  induction k with
  | zero =>
    show t = t * 1 % 2 ^ 32
    rw [mul_one, Nat.mod_eq_of_lt ht]
  | succ k ih =>
    show varHueIter k t * 2 % 2 ^ 32 = t * 2 ^ (k + 1) % 2 ^ 32
    rw [ih, Nat.mod_mul_mod]
    congr 1
    ring

/-- Witness for C9's amended statement: seven presses from 100 ms yield
`100 * 2^7 mod 2^32 = 12800` ms. -/
theorem c9_witness : varHueIter 7 MIN_STEP_TIME = MIN_STEP_TIME * 2 ^ 7 % 2 ^ 32 :=
  c9_doubling_unbounded 7 MIN_STEP_TIME (by norm_num [MIN_STEP_TIME])

/-! ## Claim C7 -/

theorem rDesat_zero_one : rDesat 0 1 = 0 := by
  norm_num [rDesat, hsbT, clampHue, pureRed, desat, MAX_RGB]

theorem gDesat_zero_one : gDesat 0 1 = 0 := by
  norm_num [gDesat, hsbT, clampHue, pureGreen, desat, MAX_RGB]

theorem bDesat_zero_one : bDesat 0 1 = 255 := by
  norm_num [bDesat, hsbT, clampHue, pureBlue, desat, MAX_RGB]

/-- At pure saturated blue the brightness cap sits exactly at 1/3. -/
theorem brightCapped_zero_one (b : ℚ) :
    brightCapped 0 1 b = if b > 1/3 then 1/3 else b := by
  unfold brightCapped capBright
  rw [rDesat_zero_one, gDesat_zero_one, bDesat_zero_one]
  norm_num [MAX_RGB]

/-- C7: limit behavior of the edit commands, at a representative hard limit
for each (the multiplicative step factor `255^(-1/60)` is irrational and is
taken as a parameter `0 < f < 1`).  Desaturate at `sat = 0`, Saturate at
`sat = 1`, an RGB increment at the ceiling, an RGB decrement at the floor,
and Brighten at the brightness cap all clamp AND blink — but Dim at the
`MIN_BRIGHT` floor clamps silently, with no blink, contradicting both the
claim and the sketch's own header comment. -/
theorem c7_limit_feedback (f : ℚ) (hf0 : 0 < f) (hf1 : f < 1) :
    desatPress 0 = (0, true) ∧
    satPress 1 = (1, true) ∧
    incrPress f MAX_RGB = (MAX_RGB, true) ∧
    decrPress f 0 = (0, true) ∧
    brightenPress 0 1 f (1/3) = (1/3, true) ∧
    dimPress 0 1 f MIN_BRIGHT = (MIN_BRIGHT, false) := by
  refine ⟨?_, ?_, ?_, ?_, ?_, ?_⟩
  · norm_num [desatPress, SAT_STEPS]
  · norm_num [satPress, SAT_STEPS]
  · have hge : MAX_RGB / f ≥ MAX_RGB := by
      rw [ge_iff_le, le_div_iff hf0]
      norm_num [MAX_RGB]
      nlinarith
    unfold incrPress
    rw [if_neg (show ¬ MAX_RGB < MIN_RGB by norm_num [MIN_RGB, MAX_RGB]), if_pos hge]
  · unfold decrPress
    rw [zero_mul, if_pos (by norm_num [MIN_RGB])]
  · have hkick : (if (1:ℚ)/3 < MIN_BRIGHT then MIN_BRIGHT else 1/3) = 1/3 := by
      norm_num [MIN_BRIGHT, MIN_RGB, MAX_RGB]
    have hgt : (1:ℚ)/3 / f > 1/3 := by
      rw [gt_iff_lt, lt_div_iff hf0]
      nlinarith
    have hcap : brightCapped 0 1 (1/3 / f) = 1/3 := by
      rw [brightCapped_zero_one, if_pos hgt]
    simp only [brightenPress, HSBtoRGB]
    rw [hkick]
    simp only [hcap, rDesat_zero_one, gDesat_zero_one, bDesat_zero_one]
    norm_num [MAX_RGB]
  · have hnot : ¬ (MIN_BRIGHT * f > 1/3) := by
      norm_num [MIN_BRIGHT, MIN_RGB, MAX_RGB]
      nlinarith
    have hlt : MIN_BRIGHT * f < MIN_BRIGHT := by
      norm_num [MIN_BRIGHT, MIN_RGB, MAX_RGB]
      nlinarith
    simp only [dimPress]
    rw [brightCapped_zero_one, if_neg hnot, if_pos hlt]

/-- Witness for C7 at the concrete factor `f = 9/10`. -/
theorem c7_witness :
    desatPress 0 = (0, true) ∧
    satPress 1 = (1, true) ∧
    incrPress (9/10) MAX_RGB = (MAX_RGB, true) ∧
    decrPress (9/10) 0 = (0, true) ∧
    brightenPress 0 1 (9/10) (1/3) = (1/3, true) ∧
    dimPress 0 1 (9/10) MIN_BRIGHT = (MIN_BRIGHT, false) :=
  c7_limit_feedback (9/10) (by norm_num) (by norm_num)

/-! ## Color-engine lemmas -/

theorem hsbT_bounds (h : ℚ) : 0 ≤ hsbT h ∧ hsbT h ≤ 3 := by
  simp only [hsbT, clampHue]
  split_ifs <;> constructor <;> linarith

theorem hsbT_eq {h : ℚ} (h0 : 0 ≤ h) (h1 : h ≤ 1) : hsbT h = h * 3 := by
  simp only [hsbT, clampHue]
  rw [if_neg (not_lt.mpr h0), if_neg (not_lt.mpr h1)]

/-- Closed forms of the three ramps on the first third of the hue circle. -/
theorem ramp1 {t : ℚ} (h0 : 0 ≤ t) (h1 : t ≤ 1) :
    pureRed t = 255 * t ∧ pureGreen t = 0 ∧ pureBlue t = 255 - 255 * t := by
  refine ⟨?_, ?_, ?_⟩
  · simp only [pureRed, MAX_RGB]
    rw [if_pos ⟨h0, h1⟩]
    ring
  · rcases lt_or_eq_of_le h1 with h1' | h1'
    · simp only [pureGreen, MAX_RGB]
      rw [if_neg (by intro hc; linarith [hc.1]), if_neg (by intro hc; linarith [hc.1])]
    · rw [h1']
      norm_num [pureGreen, MAX_RGB]
  · simp only [pureBlue, MAX_RGB]
    rw [if_neg (by intro hc; linarith [hc.1]), if_pos ⟨h0, h1⟩]
    ring

/-- Closed forms on the middle third. -/
theorem ramp2 {t : ℚ} (h1 : 1 < t) (h2 : t ≤ 2) :
    pureRed t = 255 * (2 - t) ∧ pureGreen t = 255 * (t - 1) ∧ pureBlue t = 0 := by
  refine ⟨?_, ?_, ?_⟩
  · simp only [pureRed, MAX_RGB]
    rw [if_neg (by intro hc; linarith [hc.2]), if_pos ⟨h1, h2⟩]
    ring
  · simp only [pureGreen, MAX_RGB]
    rw [if_pos ⟨le_of_lt h1, h2⟩]
    ring
  · rcases lt_or_eq_of_le h2 with h2' | h2'
    · simp only [pureBlue, MAX_RGB]
      rw [if_neg (by intro hc; linarith [hc.1]), if_neg (by intro hc; linarith [hc.2])]
    · rw [h2']
      norm_num [pureBlue, MAX_RGB]

/-- Closed forms on the last third. -/
theorem ramp3 {t : ℚ} (h2 : 2 < t) (h3 : t ≤ 3) :
    pureRed t = 0 ∧ pureGreen t = 255 * (3 - t) ∧ pureBlue t = 255 * (t - 2) := by
  refine ⟨?_, ?_, ?_⟩
  · simp only [pureRed, MAX_RGB]
    rw [if_neg (by intro hc; linarith [hc.2]), if_neg (by intro hc; linarith [hc.2])]
  · simp only [pureGreen, MAX_RGB]
    rw [if_neg (by intro hc; linarith [hc.2]), if_pos ⟨h2, h3⟩]
    ring
  · simp only [pureBlue, MAX_RGB]
    rw [if_pos ⟨le_of_lt h2, h3⟩]
    ring

theorem pure_bounds {t : ℚ} (h0 : 0 ≤ t) (h3 : t ≤ 3) :
    (0 ≤ pureRed t ∧ pureRed t ≤ 255) ∧ (0 ≤ pureGreen t ∧ pureGreen t ≤ 255) ∧
    (0 ≤ pureBlue t ∧ pureBlue t ≤ 255) := by
  refine ⟨?_, ?_, ?_⟩ <;>
    [unfold pureRed MAX_RGB; unfold pureGreen MAX_RGB; unfold pureBlue MAX_RGB] <;>
    split_ifs <;> constructor <;> linarith

theorem pure_sum {t : ℚ} (h0 : 0 ≤ t) (h3 : t ≤ 3) :
    pureRed t + pureGreen t + pureBlue t = 255 := by
  rcases le_or_lt t 1 with hA | hA
  · obtain ⟨hr, hg, hb⟩ := ramp1 h0 hA
    rw [hr, hg, hb]; ring
  · rcases le_or_lt t 2 with hB | hB
    · obtain ⟨hr, hg, hb⟩ := ramp2 hA hB
      rw [hr, hg, hb]; ring
    · obtain ⟨hr, hg, hb⟩ := ramp3 hB h3
      rw [hr, hg, hb]; ring

theorem pure_min_zero {t : ℚ} (h0 : 0 ≤ t) (h3 : t ≤ 3) :
    min (pureRed t) (min (pureGreen t) (pureBlue t)) = 0 := by
  obtain ⟨⟨hr0, _⟩, ⟨hg0, _⟩, ⟨hb0, _⟩⟩ := pure_bounds h0 h3
  have hmin : 0 ≤ min (pureRed t) (min (pureGreen t) (pureBlue t)) := by
    simp [le_min_iff, hr0, hg0, hb0]
  have hone : pureRed t = 0 ∨ pureGreen t = 0 ∨ pureBlue t = 0 := by
    rcases le_or_lt t 1 with hA | hA
    · exact Or.inr (Or.inl (ramp1 h0 hA).2.1)
    · rcases le_or_lt t 2 with hB | hB
      · exact Or.inr (Or.inr (ramp2 hA hB).2.2)
      · exact Or.inl (ramp3 hB h3).1
  rcases hone with hz | hz | hz
  · exact le_antisymm (le_trans (min_le_left _ _) (le_of_eq hz)) hmin
  · exact le_antisymm (le_trans (min_le_right _ _)
      (le_trans (min_le_left _ _) (le_of_eq hz))) hmin
  · exact le_antisymm (le_trans (min_le_right _ _)
      (le_trans (min_le_right _ _) (le_of_eq hz))) hmin

theorem desat_nonneg {s c : ℚ} (hs0 : 0 ≤ s) (hs1 : s ≤ 1) (hc : 0 ≤ c) :
    0 ≤ desat s c := by
  unfold desat MAX_RGB
  nlinarith

theorem desat_le_255 {s c : ℚ} (hs0 : 0 ≤ s) (hs1 : s ≤ 1) (hc : c ≤ 255) :
    desat s c ≤ 255 := by
  unfold desat MAX_RGB
  nlinarith [mul_le_mul_of_nonneg_left hc hs0]

theorem desat_sum {s a b c : ℚ} (hsum : a + b + c = 255) :
    desat s a + desat s b + desat s c = 255 := by
  unfold desat MAX_RGB
  linear_combination s * hsum

theorem desat_mono {s a b : ℚ} (hs : 0 ≤ s) (hab : a ≤ b) :
    desat s a ≤ desat s b := by
  unfold desat
  nlinarith [mul_le_mul_of_nonneg_left hab hs]

theorem desat_le_iff {s a b : ℚ} (hs : 0 < s) : desat s a ≤ desat s b ↔ a ≤ b := by
  unfold desat
  constructor
  · intro hd
    nlinarith
  · intro hab
    nlinarith [mul_le_mul_of_nonneg_left hab (le_of_lt hs)]

theorem min_desat {s a b : ℚ} (hs : 0 ≤ s) :
    min (desat s a) (desat s b) = desat s (min a b) := by
  rcases le_total a b with hab | hab
  · rw [min_eq_left (desat_mono hs hab), min_eq_left hab]
  · rw [min_eq_right (desat_mono hs hab), min_eq_right hab]

theorem unsat_desat {s c : ℚ} (hs : s ≠ 0) : unsat s (desat s c) = c := by
  unfold unsat desat MAX_RGB
  field_simp
  ring

theorem max3_ge {a b c : ℚ} (hsum : a + b + c = 255) : 85 ≤ max a (max b c) := by
  have h1 := le_max_left a (max b c)
  have h2 := le_trans (le_max_left b c) (le_max_right a (max b c))
  have h3 := le_trans (le_max_right b c) (le_max_right a (max b c))
  linarith

theorem capBright_noop {r g b bright : ℚ} (hle : max r (max g b) ≤ 255)
    (hpos : 0 < max r (max g b)) (hb : bright ≤ 1/3) :
    capBright r g b bright = bright := by
  unfold capBright
  have hcap : (1:ℚ)/3 ≤ MAX_RGB / max r (max g b) / 3 := by
    rw [MAX_RGB, div_div, le_div_iff (by positivity)]
    linarith
  exact if_neg (not_lt.mpr (hb.trans hcap))

/-! ## Claim C4 -/

/-- Core behavior of the final scaling step of `HSBtoRGB`, stated over the
desaturated channels: the scaled channels sum to `255 * (3 * effective
bright)`, each stays at or below the ceiling, the effective bright never
exceeds the requested one, and when they differ the largest channel sits
exactly at the ceiling. -/
theorem capBright_core {rd gd bd br : ℚ}
    (hsum : rd + gd + bd = 255) (hbr : 0 ≤ br) :
    rd * (capBright rd gd bd br * 3) + gd * (capBright rd gd bd br * 3) +
      bd * (capBright rd gd bd br * 3) = 255 * (capBright rd gd bd br * 3) ∧
    rd * (capBright rd gd bd br * 3) ≤ 255 ∧
    gd * (capBright rd gd bd br * 3) ≤ 255 ∧
    bd * (capBright rd gd bd br * 3) ≤ 255 ∧
    capBright rd gd bd br ≤ br ∧
    (capBright rd gd bd br = br ∨
      max (rd * (capBright rd gd bd br * 3))
        (max (gd * (capBright rd gd bd br * 3))
          (bd * (capBright rd gd bd br * 3))) = 255) := by
  have hM85 : 85 ≤ max rd (max gd bd) := max3_ge hsum
  have hMpos : (0:ℚ) < max rd (max gd bd) := by linarith
  have hrdM : rd ≤ max rd (max gd bd) := le_max_left _ _
  have hgdM : gd ≤ max rd (max gd bd) :=
    le_trans (le_max_left _ _) (le_max_right _ _)
  have hbdM : bd ≤ max rd (max gd bd) :=
    le_trans (le_max_right _ _) (le_max_right _ _)
  have hfirst : rd * (capBright rd gd bd br * 3) + gd * (capBright rd gd bd br * 3) +
      bd * (capBright rd gd bd br * 3) = 255 * (capBright rd gd bd br * 3) :=
    by linear_combination (capBright rd gd bd br * 3) * hsum
  by_cases hcond : br > MAX_RGB / max rd (max gd bd) / 3
  · have hbc : capBright rd gd bd br = MAX_RGB / max rd (max gd bd) / 3 := by
      simp only [capBright]
      rw [if_pos hcond]
    have hcap0 : 0 ≤ MAX_RGB / max rd (max gd bd) / 3 := by
      rw [MAX_RGB]
      exact le_of_lt (div_pos (div_pos (by norm_num) hMpos) (by norm_num))
    have hprod : max rd (max gd bd) * (MAX_RGB / max rd (max gd bd) / 3 * 3) = 255 := by
      rw [MAX_RGB]
      field_simp
      ring
    have hc3 : 0 ≤ MAX_RGB / max rd (max gd bd) / 3 * 3 := by linarith
    refine ⟨hfirst, ?_, ?_, ?_, ?_, Or.inr ?_⟩
    · rw [hbc]
      calc rd * (MAX_RGB / max rd (max gd bd) / 3 * 3)
          ≤ max rd (max gd bd) * (MAX_RGB / max rd (max gd bd) / 3 * 3) :=
            mul_le_mul_of_nonneg_right hrdM hc3
        _ = 255 := hprod
    · rw [hbc]
      calc gd * (MAX_RGB / max rd (max gd bd) / 3 * 3)
          ≤ max rd (max gd bd) * (MAX_RGB / max rd (max gd bd) / 3 * 3) :=
            mul_le_mul_of_nonneg_right hgdM hc3
        _ = 255 := hprod
    · rw [hbc]
      calc bd * (MAX_RGB / max rd (max gd bd) / 3 * 3)
          ≤ max rd (max gd bd) * (MAX_RGB / max rd (max gd bd) / 3 * 3) :=
            mul_le_mul_of_nonneg_right hbdM hc3
        _ = 255 := hprod
    · rw [hbc]
      exact le_of_lt hcond
    · rw [hbc]
      rw [← max_mul_of_nonneg gd bd hc3, ← max_mul_of_nonneg rd (max gd bd) hc3]
      exact hprod
  · have hbc : capBright rd gd bd br = br := by
      simp only [capBright]
      rw [if_neg hcond]
    have hble : br * (max rd (max gd bd) * 3) ≤ 255 := by
      have h' := not_lt.mp hcond
      rw [MAX_RGB, div_div] at h'
      exact (le_div_iff (by positivity)).mp h'
    have hbr3 : 0 ≤ br * 3 := by linarith
    refine ⟨hfirst, ?_, ?_, ?_, le_of_eq hbc, Or.inl hbc⟩
    · rw [hbc]
      calc rd * (br * 3) ≤ max rd (max gd bd) * (br * 3) :=
            mul_le_mul_of_nonneg_right hrdM hbr3
        _ = br * (max rd (max gd bd) * 3) := by ring
        _ ≤ 255 := hble
    · rw [hbc]
      calc gd * (br * 3) ≤ max rd (max gd bd) * (br * 3) :=
            mul_le_mul_of_nonneg_right hgdM hbr3
        _ = br * (max rd (max gd bd) * 3) := by ring
        _ ≤ 255 := hble
    · rw [hbc]
      calc bd * (br * 3) ≤ max rd (max gd bd) * (br * 3) :=
            mul_le_mul_of_nonneg_right hbdM hbr3
        _ = br * (max rd (max gd bd) * 3) := by ring
        _ ≤ 255 := hble

/-- C4: for every input hue and saturation and every requested
`bright ≥ 0`, `HSBtoRGB` scales the desaturated triple so its mean channel
fraction equals the value written back through `bright`; no channel exceeds
the ceiling; the written-back bright never exceeds the requested one, and
when it is capped the largest channel sits exactly at the ceiling. -/
theorem c4_bright_writeback (h s b : ℚ) (hb : 0 ≤ b) :
    ((HSBtoRGB h s b).red + (HSBtoRGB h s b).green + (HSBtoRGB h s b).blue)
        / MAX_RGB / 3 = (HSBtoRGB h s b).bright ∧
    (HSBtoRGB h s b).red ≤ MAX_RGB ∧
    (HSBtoRGB h s b).green ≤ MAX_RGB ∧
    (HSBtoRGB h s b).blue ≤ MAX_RGB ∧
    (HSBtoRGB h s b).bright ≤ b ∧
    ((HSBtoRGB h s b).bright = b ∨
      max (HSBtoRGB h s b).red (max (HSBtoRGB h s b).green (HSBtoRGB h s b).blue)
        = MAX_RGB) := by
  obtain ⟨ht0, ht3⟩ := hsbT_bounds h
  have core := capBright_core (desat_sum (s := s) (pure_sum ht0 ht3)) hb
  have e1 : desat s (pureRed (hsbT h)) = rDesat h s := rfl
  have e2 : desat s (pureGreen (hsbT h)) = gDesat h s := rfl
  have e3 : desat s (pureBlue (hsbT h)) = bDesat h s := rfl
  rw [e1, e2, e3] at core
  have hbc : capBright (rDesat h s) (gDesat h s) (bDesat h s) b = brightCapped h s b := rfl
  rw [hbc] at core
  refine ⟨?_, core.2.1, core.2.2.1, core.2.2.2.1, core.2.2.2.2.1, core.2.2.2.2.2⟩
  show (rDesat h s * (brightCapped h s b * 3) + gDesat h s * (brightCapped h s b * 3) +
      bDesat h s * (brightCapped h s b * 3)) / MAX_RGB / 3 = brightCapped h s b
  rw [core.1, MAX_RGB]
  ring

/-- Witness for C4 at `(hue, sat, bright) = (1/2, 1/2, 2)`, where the
requested brightness is capped. -/
theorem c4_witness :
    ((HSBtoRGB (1/2) (1/2) 2).red + (HSBtoRGB (1/2) (1/2) 2).green +
        (HSBtoRGB (1/2) (1/2) 2).blue) / MAX_RGB / 3 = (HSBtoRGB (1/2) (1/2) 2).bright ∧
    (HSBtoRGB (1/2) (1/2) 2).red ≤ MAX_RGB ∧
    (HSBtoRGB (1/2) (1/2) 2).green ≤ MAX_RGB ∧
    (HSBtoRGB (1/2) (1/2) 2).blue ≤ MAX_RGB ∧
    (HSBtoRGB (1/2) (1/2) 2).bright ≤ 2 ∧
    ((HSBtoRGB (1/2) (1/2) 2).bright = 2 ∨
      max (HSBtoRGB (1/2) (1/2) 2).red
        (max (HSBtoRGB (1/2) (1/2) 2).green (HSBtoRGB (1/2) (1/2) 2).blue) = MAX_RGB) :=
  c4_bright_writeback (1/2) (1/2) 2 (by norm_num)

/-! ## Claim C3 -/

theorem desat_one (c : ℚ) : desat 1 c = c := by
  unfold desat
  ring

/-- At `sat = 1`, `bright = 1/3`, the output channels of `HSBtoRGB` are
exactly the pure ramps at the tripled hue. -/
theorem hsb_sat1_channels {h : ℚ} (h0 : 0 ≤ h) (h1 : h ≤ 1) :
    (HSBtoRGB h 1 (1/3)).red = pureRed (h * 3) ∧
    (HSBtoRGB h 1 (1/3)).green = pureGreen (h * 3) ∧
    (HSBtoRGB h 1 (1/3)).blue = pureBlue (h * 3) := by
  have ht := hsbT_eq h0 h1
  obtain ⟨ht0, ht3⟩ := hsbT_bounds h
  obtain ⟨⟨hr0, hr1⟩, ⟨hg0, hg1⟩, ⟨hb0, hb1⟩⟩ := pure_bounds ht0 ht3
  have he1 : rDesat h 1 = pureRed (h * 3) := by
    unfold rDesat
    rw [desat_one, ht]
  have he2 : gDesat h 1 = pureGreen (h * 3) := by
    unfold gDesat
    rw [desat_one, ht]
  have he3 : bDesat h 1 = pureBlue (h * 3) := by
    unfold bDesat
    rw [desat_one, ht]
  have hsum : pureRed (h * 3) + pureGreen (h * 3) + pureBlue (h * 3) = 255 := by
    rw [← ht]
    exact pure_sum ht0 ht3
  have hM85 : 85 ≤ max (pureRed (h * 3)) (max (pureGreen (h * 3)) (pureBlue (h * 3))) :=
    max3_ge hsum
  have hMle : max (pureRed (h * 3)) (max (pureGreen (h * 3)) (pureBlue (h * 3))) ≤ 255 := by
    rw [← ht] at *
    exact max_le hr1 (max_le hg1 hb1)
  have hcap : brightCapped h 1 (1/3) = 1/3 := by
    unfold brightCapped
    rw [he1, he2, he3]
    exact capBright_noop hMle (by linarith) (le_refl _)
  refine ⟨?_, ?_, ?_⟩
  · show rDesat h 1 * (brightCapped h 1 (1/3) * 3) = _
    rw [he1, hcap]
    ring
  · show gDesat h 1 * (brightCapped h 1 (1/3) * 3) = _
    rw [he2, hcap]
    ring
  · show bDesat h 1 * (brightCapped h 1 (1/3) * 3) = _
    rw [he3, hcap]
    ring

/-- C3 counterexample: at the primary hue 0 (pure blue) with `sat = 1`,
`bright = 1/3`, TWO channels sit at the floor, so "exactly one channel
touches the floor" fails. -/
theorem c3_two_channels_at_floor :
    (HSBtoRGB 0 1 (1/3)).red = 0 ∧ (HSBtoRGB 0 1 (1/3)).green = 0 ∧
    (HSBtoRGB 0 1 (1/3)).blue = 255 := by
  have hcap : brightCapped 0 1 (1/3) = 1/3 := by
    rw [brightCapped_zero_one, if_neg (by norm_num)]
  refine ⟨?_, ?_, ?_⟩
  · show rDesat 0 1 * (brightCapped 0 1 (1/3) * 3) = 0
    rw [rDesat_zero_one]
    ring
  · show gDesat 0 1 * (brightCapped 0 1 (1/3) * 3) = 0
    rw [gDesat_zero_one]
    ring
  · show bDesat 0 1 * (brightCapped 0 1 (1/3) * 3) = 255
    rw [bDesat_zero_one, hcap]
    ring

/-- C3 amended: for every hue in `[0,1)` with `sat = 1`, `bright = 1/3`, at
least one channel is at the floor and the three channels sum to the
full-saturation bound 255 (so the channels off the floor sum to 255);
exactly one channel is at the floor except at the three primaries
`hue ∈ {0, 1/3, 2/3}`, where two are. -/
theorem c3_floor_and_sum (h : ℚ) (h0 : 0 ≤ h) (h1 : h < 1) :
    ((HSBtoRGB h 1 (1/3)).red = 0 ∨ (HSBtoRGB h 1 (1/3)).green = 0 ∨
      (HSBtoRGB h 1 (1/3)).blue = 0) ∧
    (HSBtoRGB h 1 (1/3)).red + (HSBtoRGB h 1 (1/3)).green +
      (HSBtoRGB h 1 (1/3)).blue = MAX_RGB ∧
    (h ≠ 0 ∧ h ≠ 1/3 ∧ h ≠ 2/3 →
      (((HSBtoRGB h 1 (1/3)).red = 0 ∧ (HSBtoRGB h 1 (1/3)).green ≠ 0 ∧
          (HSBtoRGB h 1 (1/3)).blue ≠ 0) ∨
       ((HSBtoRGB h 1 (1/3)).red ≠ 0 ∧ (HSBtoRGB h 1 (1/3)).green = 0 ∧
          (HSBtoRGB h 1 (1/3)).blue ≠ 0) ∨
       ((HSBtoRGB h 1 (1/3)).red ≠ 0 ∧ (HSBtoRGB h 1 (1/3)).green ≠ 0 ∧
          (HSBtoRGB h 1 (1/3)).blue = 0))) := by
  obtain ⟨hcr, hcg, hcb⟩ := hsb_sat1_channels h0 (le_of_lt h1)
  rw [hcr, hcg, hcb, MAX_RGB]
  rcases le_or_lt h (1/3) with hA | hA
  · obtain ⟨hr, hg, hb⟩ := ramp1 (by linarith : (0:ℚ) ≤ h * 3) (by linarith : h * 3 ≤ 1)
    rw [hr, hg, hb]
    refine ⟨Or.inr (Or.inl rfl), by ring, fun ⟨hne0, hne13, _⟩ => Or.inr (Or.inl ⟨?_, rfl, ?_⟩)⟩
    · intro hc
      exact hne0 (by linarith)
    · intro hc
      exact hne13 (by linarith)
  · rcases le_or_lt h (2/3) with hB | hB
    · obtain ⟨hr, hg, hb⟩ := ramp2 (by linarith : (1:ℚ) < h * 3) (by linarith : h * 3 ≤ 2)
      rw [hr, hg, hb]
      refine ⟨Or.inr (Or.inr rfl), by ring, fun ⟨_, _, hne23⟩ => Or.inr (Or.inr ⟨?_, ?_, rfl⟩)⟩
      · intro hc
        exact hne23 (by linarith)
      · intro hc
        linarith
    · obtain ⟨hr, hg, hb⟩ := ramp3 (by linarith : (2:ℚ) < h * 3) (by linarith : h * 3 ≤ 3)
      rw [hr, hg, hb]
      refine ⟨Or.inl rfl, by ring, fun _ => Or.inl ⟨rfl, ?_, ?_⟩⟩
      · intro hc
        linarith
      · intro hc
        linarith

/-- Witness for C3's amended statement at `hue = 1/2` (pure yellow). -/
theorem c3_witness :
    ((HSBtoRGB (1/2) 1 (1/3)).red = 0 ∨ (HSBtoRGB (1/2) 1 (1/3)).green = 0 ∨
      (HSBtoRGB (1/2) 1 (1/3)).blue = 0) ∧
    (HSBtoRGB (1/2) 1 (1/3)).red + (HSBtoRGB (1/2) 1 (1/3)).green +
      (HSBtoRGB (1/2) 1 (1/3)).blue = MAX_RGB ∧
    ((1:ℚ)/2 ≠ 0 ∧ (1:ℚ)/2 ≠ 1/3 ∧ (1:ℚ)/2 ≠ 2/3 →
      (((HSBtoRGB (1/2) 1 (1/3)).red = 0 ∧ (HSBtoRGB (1/2) 1 (1/3)).green ≠ 0 ∧
          (HSBtoRGB (1/2) 1 (1/3)).blue ≠ 0) ∨
       ((HSBtoRGB (1/2) 1 (1/3)).red ≠ 0 ∧ (HSBtoRGB (1/2) 1 (1/3)).green = 0 ∧
          (HSBtoRGB (1/2) 1 (1/3)).blue ≠ 0) ∨
       ((HSBtoRGB (1/2) 1 (1/3)).red ≠ 0 ∧ (HSBtoRGB (1/2) 1 (1/3)).green ≠ 0 ∧
          (HSBtoRGB (1/2) 1 (1/3)).blue = 0))) :=
  c3_floor_and_sum (1/2) (by norm_num) (by norm_num)

/-! ## Claim C10 -/

/-- All six inverse-ramp branch values lie in `[0,3]` when the recovered
pure channels lie in `[0,255]`, and the fall-through keeps `hue0`. -/
theorem hueFromPure_range {hue0 r g b : ℚ} (h0 : 0 ≤ hue0) (h3 : hue0 ≤ 3)
    (hr0 : 0 ≤ r) (hr1 : r ≤ 255) (hg0 : 0 ≤ g) (hg1 : g ≤ 255)
    (hb0 : 0 ≤ b) (hb1 : b ≤ 255) :
    0 ≤ hueFromPure hue0 r g b ∧ hueFromPure hue0 r g b ≤ 3 := by
  simp only [hueFromPure, MAX_RGB]
  split_ifs <;> constructor <;> linarith

theorem normalized_facts {r g b : ℚ} (hr : 0 ≤ r) (hg : 0 ≤ g) (hb : 0 ≤ b)
    (hsum : 0 < r + g + b) :
    0 ≤ normR r g b ∧ 0 ≤ normG r g b ∧ 0 ≤ normB r g b ∧
    normR r g b + normG r g b + normB r g b = 255 := by
  have hne : r + g + b ≠ 0 := ne_of_gt hsum
  unfold normR normG normB normalize
  simp only [if_pos hsum, MAX_RGB]
  have hq : 0 ≤ (255:ℚ) / (r + g + b) := le_of_lt (div_pos (by norm_num) hsum)
  refine ⟨mul_nonneg hr hq, mul_nonneg hg hq, mul_nonneg hb hq, ?_⟩
  field_simp
  ring

theorem satN_eq (r g b : ℚ) :
    satN r g b =
      (85 - min (normR r g b) (min (normG r g b) (normB r g b))) / 85 := by
  unfold satN satOf MAX_RGB
  norm_num

/-- Recovering a saturated channel from a normalized one: bounds.  Here `m`
is the minimum normalized channel and `s = (85 - m)/85` the computed
saturation. -/
theorem unsat_bounds {s m c : ℚ} (hm0 : 0 ≤ m) (hm85 : m < 85)
    (hs : s = (85 - m) / 85) (hc0 : m ≤ c) (hc1 : c ≤ 255 - 2 * m) :
    0 ≤ unsat s c ∧ unsat s c ≤ 255 := by
  have hspos : 0 < s := by
    rw [hs]
    exact div_pos (by linarith) (by norm_num)
  have hval : unsat s c = (c - m) / s := by
    unfold unsat
    rw [MAX_RGB, hs]
    congr 1
    ring
  rw [hval]
  constructor
  · exact div_nonneg (by linarith) (le_of_lt hspos)
  · rw [div_le_iff hspos, hs]
    linarith

/-- With nonnegative inputs of positive sum and positive computed
saturation, all recovered pure channels lie in `[0,255]`. -/
theorem puresOf_bounds {r g b : ℚ} (hr : 0 ≤ r) (hg : 0 ≤ g) (hb : 0 ≤ b)
    (hsum : 0 < r + g + b) (hsat : 0 < satN r g b) :
    (0 ≤ (puresOf r g b).1 ∧ (puresOf r g b).1 ≤ 255) ∧
    (0 ≤ (puresOf r g b).2.1 ∧ (puresOf r g b).2.1 ≤ 255) ∧
    (0 ≤ (puresOf r g b).2.2 ∧ (puresOf r g b).2.2 ≤ 255) := by
  obtain ⟨hrn, hgn, hbn, hnsum⟩ := normalized_facts hr hg hb hsum
  have hmr : min (normR r g b) (min (normG r g b) (normB r g b)) ≤ normR r g b :=
    min_le_left _ _
  have hmg : min (normR r g b) (min (normG r g b) (normB r g b)) ≤ normG r g b :=
    le_trans (min_le_right _ _) (min_le_left _ _)
  have hmb : min (normR r g b) (min (normG r g b) (normB r g b)) ≤ normB r g b :=
    le_trans (min_le_right _ _) (min_le_right _ _)
  have hm0 : 0 ≤ min (normR r g b) (min (normG r g b) (normB r g b)) :=
    le_min hrn (le_min hgn hbn)
  have hm85 : min (normR r g b) (min (normG r g b) (normB r g b)) < 85 := by
    rw [satN_eq] at hsat
    nlinarith [hsat]
  have hsval := satN_eq r g b
  have hub1 := unsat_bounds hm0 hm85 hsval hmr (by linarith)
  have hub2 := unsat_bounds hm0 hm85 hsval hmg (by linarith)
  have hub3 := unsat_bounds hm0 hm85 hsval hmb (by linarith)
  unfold puresOf removeMin
  split_ifs
  · exact ⟨⟨le_refl 0, by norm_num⟩, hub2, hub3⟩
  · exact ⟨hub1, ⟨le_refl 0, by norm_num⟩, hub3⟩
  · exact ⟨hub1, hub2, ⟨le_refl 0, by norm_num⟩⟩
  · exact ⟨⟨hrn, by linarith⟩, ⟨hgn, by linarith⟩, ⟨hbn, by linarith⟩⟩

/-- For nonnegative channel inputs and a stored hue in `[0,1]`, the hue left
by `RGBtoHSB` is again in `[0,1]` (either untouched, or recomputed from
branch values that all lie in `[0,3]` before the division by 3). -/
theorem rgbtohsb_hue_range {hue0 r g b : ℚ} (h0 : 0 ≤ hue0) (h1 : hue0 ≤ 1)
    (hr : 0 ≤ r) (hg : 0 ≤ g) (hb : 0 ≤ b) :
    0 ≤ (RGBtoHSB hue0 r g b).hue ∧ (RGBtoHSB hue0 r g b).hue ≤ 1 := by
  simp only [RGBtoHSB]
  by_cases hguard : satN r g b > 0 ∧ brightOf r g b > 0
  · have hsumpos : 0 < r + g + b := by
      have hq := hguard.2
      unfold brightOf MAX_RGB at hq
      nlinarith [hq]
    obtain ⟨⟨hp1a, hp1b⟩, ⟨hp2a, hp2b⟩, ⟨hp3a, hp3b⟩⟩ :=
      puresOf_bounds hr hg hb hsumpos hguard.1
    obtain ⟨hfa, hfb⟩ := hueFromPure_range h0 (by linarith) hp1a hp1b hp2a hp2b hp3a hp3b
    rw [if_pos hguard]
    constructor <;> [linarith; linarith]
  · rw [if_neg hguard]
    exact ⟨h0, h1⟩

/-- C10: on the v1 controller's reachable hue range `[0,1]`, the
doubled-step guard `hue > 1.0 && hue < 2.0` is never satisfied, so every
NEXT_HUE press, PREV_HUE press and animation tick applies the single step
`1/HUE_STEPS = 1/400` (followed only by the wrap normalization), and every
hue-writing operation (the steps themselves and `RGBtoHSB` on any
nonnegative RGB triple) leaves hue inside `[0,1]` again. -/
theorem c10_single_step_and_invariant (h r g b : ℚ) (h0 : 0 ≤ h) (h1 : h ≤ 1)
    (hr : 0 ≤ r) (hg : 0 ≤ g) (hb : 0 ≤ b) :
    ¬(h > 1 ∧ h < 2) ∧
    nextHuePress h =
      (if h + 1 / (HUE_STEPS : ℚ) > 1 then 0 else h + 1 / (HUE_STEPS : ℚ)) ∧
    prevHuePress h =
      (if h - 1 / (HUE_STEPS : ℚ) < 0 then 1 else h - 1 / (HUE_STEPS : ℚ)) ∧
    varyHueTick h =
      (if h + 1 / (HUE_STEPS : ℚ) > 1 then 0 else h + 1 / (HUE_STEPS : ℚ)) ∧
    (0 ≤ nextHuePress h ∧ nextHuePress h ≤ 1) ∧
    (0 ≤ prevHuePress h ∧ prevHuePress h ≤ 1) ∧
    (0 ≤ varyHueTick h ∧ varyHueTick h ≤ 1) ∧
    (0 ≤ (RGBtoHSB h r g b).hue ∧ (RGBtoHSB h r g b).hue ≤ 1) := by
  have hguard : ¬(h > 1 ∧ h < 2) := fun hc => absurd hc.1 (not_lt.mpr h1)
  have hstep : (0:ℚ) < 1 / (HUE_STEPS : ℚ) := by norm_num [HUE_STEPS]
  have hnext : nextHuePress h =
      (if h + 1 / (HUE_STEPS : ℚ) > 1 then 0 else h + 1 / (HUE_STEPS : ℚ)) := by
    simp only [nextHuePress]
    rw [if_neg hguard]
  have hzero : ((((1:ℤ) / HUE_STEPS : ℤ)) : ℚ) = 0 := by
    norm_num [HUE_STEPS]
  have hprev : prevHuePress h =
      (if h - 1 / (HUE_STEPS : ℚ) < 0 then 1 else h - 1 / (HUE_STEPS : ℚ)) := by
    simp only [prevHuePress]
    rw [if_neg hguard, hzero]
  have htick : varyHueTick h =
      (if h + 1 / (HUE_STEPS : ℚ) > 1 then 0 else h + 1 / (HUE_STEPS : ℚ)) := by
    simp only [varyHueTick]
    rw [if_neg hguard]
  refine ⟨hguard, hnext, hprev, htick, ?_, ?_, ?_,
    rgbtohsb_hue_range h0 h1 hr hg hb⟩
  · rw [hnext]
    split_ifs with hc
    · norm_num
    · constructor <;> [linarith; linarith]
  · rw [hprev]
    split_ifs with hc
    · norm_num
    · constructor <;> [linarith; linarith]
  · rw [htick]
    split_ifs with hc
    · norm_num
    · constructor <;> [linarith; linarith]

/-- Witness for C10 at `hue = 1/2` and the RGB triple `(10, 20, 30)`. -/
theorem c10_witness :
    ¬((1:ℚ)/2 > 1 ∧ (1:ℚ)/2 < 2) ∧
    nextHuePress (1/2) =
      (if (1:ℚ)/2 + 1 / (HUE_STEPS : ℚ) > 1 then 0 else 1/2 + 1 / (HUE_STEPS : ℚ)) ∧
    prevHuePress (1/2) =
      (if (1:ℚ)/2 - 1 / (HUE_STEPS : ℚ) < 0 then 1 else 1/2 - 1 / (HUE_STEPS : ℚ)) ∧
    varyHueTick (1/2) =
      (if (1:ℚ)/2 + 1 / (HUE_STEPS : ℚ) > 1 then 0 else 1/2 + 1 / (HUE_STEPS : ℚ)) ∧
    (0 ≤ nextHuePress (1/2) ∧ nextHuePress (1/2) ≤ 1) ∧
    (0 ≤ prevHuePress (1/2) ∧ prevHuePress (1/2) ≤ 1) ∧
    (0 ≤ varyHueTick (1/2) ∧ varyHueTick (1/2) ≤ 1) ∧
    (0 ≤ (RGBtoHSB (1/2) 10 20 30).hue ∧ (RGBtoHSB (1/2) 10 20 30).hue ≤ 1) :=
  c10_single_step_and_invariant (1/2) 10 20 30 (by norm_num) (by norm_num)
    (by norm_num) (by norm_num) (by norm_num)

/-! ## Claim C1 -/

theorem desat_lt {s a b : ℚ} (hs : 0 < s) (hab : a < b) : desat s a < desat s b := by
  unfold desat
  nlinarith

/-- First `removeMin` arm: the red channel is minimal and gets zeroed; the
other two pures are recovered exactly. -/
theorem removeMin_red {s pr pg pb : ℚ} (hs : 0 < s)
    (h1 : desat s pr ≤ desat s pg) (h2 : desat s pr ≤ desat s pb) :
    removeMin s (desat s pr) (desat s pg) (desat s pb) = (0, pg, pb) := by
  unfold removeMin
  rw [if_pos (le_min h1 h2), unsat_desat (ne_of_gt hs), unsat_desat (ne_of_gt hs)]

/-- Second `removeMin` arm: green minimal. -/
theorem removeMin_green {s pr pg pb : ℚ} (hs : 0 < s)
    (hno : ¬ desat s pr ≤ min (desat s pg) (desat s pb))
    (h1 : desat s pg ≤ desat s pr) (h2 : desat s pg ≤ desat s pb) :
    removeMin s (desat s pr) (desat s pg) (desat s pb) = (pr, 0, pb) := by
  unfold removeMin
  rw [if_neg hno, if_pos (le_min h1 h2), unsat_desat (ne_of_gt hs),
    unsat_desat (ne_of_gt hs)]

/-- Third `removeMin` arm: blue minimal. -/
theorem removeMin_blue {s pr pg pb : ℚ} (hs : 0 < s)
    (hno1 : ¬ desat s pr ≤ min (desat s pg) (desat s pb))
    (hno2 : ¬ desat s pg ≤ min (desat s pr) (desat s pb))
    (h1 : desat s pb ≤ desat s pg) (h2 : desat s pb ≤ desat s pr) :
    removeMin s (desat s pr) (desat s pg) (desat s pb) = (pr, pg, 0) := by
  unfold removeMin
  rw [if_neg hno1, if_neg hno2, if_pos (le_min h1 h2),
    unsat_desat (ne_of_gt hs), unsat_desat (ne_of_gt hs)]

/-- Inverting the ramps on segment `t ∈ (0, 1]` (blue-to-red arc). -/
theorem hueInv1 (hue0 : ℚ) {t : ℚ} (ht0 : 0 < t) (ht1 : t ≤ 1) :
    hueFromPure hue0 (255 * t) 0 (255 - 255 * t) = t := by
  simp only [hueFromPure, MAX_RGB]
  rcases le_or_lt t (1/2) with hc | hc
  · rw [if_pos (show (255:ℚ) - 255 * t ≥ max 0 (255 * t) by
      rw [ge_iff_le, max_le_iff]
      exact ⟨by linarith, by linarith⟩)]
    rw [if_neg (show ¬((0:ℚ) > 255 * t) by linarith)]
    ring
  · rw [if_neg (show ¬((255:ℚ) - 255 * t ≥ max 0 (255 * t)) by
      rw [ge_iff_le, max_le_iff]
      push_neg
      intro _
      linarith)]
    rw [if_neg (show ¬((0:ℚ) ≥ max (255 * t) (255 - 255 * t)) from
      not_le.mpr (lt_max_iff.mpr (Or.inl (by linarith))))]
    rw [if_pos (show (255:ℚ) * t ≥ max 0 (255 - 255 * t) by
      rw [ge_iff_le, max_le_iff]
      exact ⟨by linarith, by linarith⟩)]
    rcases lt_or_eq_of_le ht1 with ht1' | ht1'
    · rw [if_pos (show (255:ℚ) - 255 * t > 0 by linarith)]
      ring
    · subst ht1'
      norm_num

/-- Inverting the ramps on segment `t ∈ (1, 2]` (red-to-green arc). -/
theorem hueInv2 (hue0 : ℚ) {t : ℚ} (ht1 : 1 < t) (ht2 : t ≤ 2) :
    hueFromPure hue0 (255 * (2 - t)) (255 * (t - 1)) 0 = t := by
  simp only [hueFromPure, MAX_RGB]
  rw [if_neg (show ¬((0:ℚ) ≥ max (255 * (t - 1)) (255 * (2 - t))) from
    not_le.mpr (lt_max_iff.mpr (Or.inl (by linarith))))]
  rcases lt_or_le t (3/2) with hc | hc
  · rw [if_neg (show ¬((255:ℚ) * (t - 1) ≥ max (255 * (2 - t)) 0) from
      not_le.mpr (lt_max_iff.mpr (Or.inl (by linarith))))]
    rw [if_pos (show (255:ℚ) * (2 - t) ≥ max (255 * (t - 1)) 0 by
      rw [ge_iff_le, max_le_iff]
      exact ⟨by linarith, by linarith⟩)]
    rw [if_neg (show ¬((0:ℚ) > 255 * (t - 1)) by linarith)]
    ring
  · rw [if_pos (show (255:ℚ) * (t - 1) ≥ max (255 * (2 - t)) 0 by
      rw [ge_iff_le, max_le_iff]
      exact ⟨by linarith, by linarith⟩)]
    rcases lt_or_eq_of_le ht2 with ht2' | ht2'
    · rw [if_pos (show (255:ℚ) * (2 - t) > 0 by linarith)]
      ring
    · subst ht2'
      norm_num

/-- Inverting the ramps on segment `t ∈ (2, 3)` (green-to-blue arc). -/
theorem hueInv3 (hue0 : ℚ) {t : ℚ} (ht2 : 2 < t) (ht3 : t < 3) :
    hueFromPure hue0 0 (255 * (3 - t)) (255 * (t - 2)) = t := by
  simp only [hueFromPure, MAX_RGB]
  rcases lt_or_le t (5/2) with hc | hc
  · rw [if_neg (show ¬((255:ℚ) * (t - 2) ≥ max (255 * (3 - t)) 0) from
      not_le.mpr (lt_max_iff.mpr (Or.inl (by linarith))))]
    rw [if_pos (show (255:ℚ) * (3 - t) ≥ max 0 (255 * (t - 2)) by
      rw [ge_iff_le, max_le_iff]
      exact ⟨by linarith, by linarith⟩)]
    rw [if_neg (show ¬((0:ℚ) > 255 * (t - 2)) by linarith)]
    ring
  · rw [if_pos (show (255:ℚ) * (t - 2) ≥ max (255 * (3 - t)) 0 by
      rw [ge_iff_le, max_le_iff]
      exact ⟨by linarith, by linarith⟩)]
    rw [if_pos (show (255:ℚ) * (3 - t) > 0 by linarith)]
    ring

/-- Inverting at pure blue `t = 0` (two channels at the floor). -/
theorem hueInvT0 (hue0 : ℚ) : hueFromPure hue0 0 0 255 = 0 := by
  simp only [hueFromPure, MAX_RGB]
  rw [if_pos (show (255:ℚ) ≥ max 0 0 by
    rw [ge_iff_le, max_le_iff]
    norm_num)]
  rw [if_neg (show ¬((0:ℚ) > 0) by norm_num)]
  norm_num

/-- Inverting at pure green `t = 2` (two channels at the floor). -/
theorem hueInvT2 (hue0 : ℚ) : hueFromPure hue0 0 255 0 = 2 := by
  simp only [hueFromPure, MAX_RGB]
  rw [if_neg (show ¬((0:ℚ) ≥ max 255 0) from
    not_le.mpr (lt_max_iff.mpr (Or.inl (by norm_num))))]
  rw [if_pos (show (255:ℚ) ≥ max 0 0 by
    rw [ge_iff_le, max_le_iff]
    norm_num)]
  rw [if_neg (show ¬((0:ℚ) > 0) by norm_num)]
  norm_num

/-- Segment-by-segment: zeroing the minimal desaturated channel and then
reversing the ramps recovers the tripled hue exactly. -/
theorem roundtrip_hue {h s : ℚ} (hh0 : 0 ≤ h) (hh1 : h < 1) (hs : 0 < s) :
    hueFromPure h
      (removeMin s (desat s (pureRed (h * 3))) (desat s (pureGreen (h * 3)))
        (desat s (pureBlue (h * 3)))).1
      (removeMin s (desat s (pureRed (h * 3))) (desat s (pureGreen (h * 3)))
        (desat s (pureBlue (h * 3)))).2.1
      (removeMin s (desat s (pureRed (h * 3))) (desat s (pureGreen (h * 3)))
        (desat s (pureBlue (h * 3)))).2.2 = h * 3 := by
  have hs0' : 0 ≤ s := le_of_lt hs
  rcases eq_or_lt_of_le hh0 with hA | hA
  · -- h = 0 : pure blue, red channel zeroed first
    obtain ⟨hr, hg, hb⟩ := ramp1 (t := h * 3) (by linarith) (by linarith)
    rw [hr, hg, hb, ← hA]
    norm_num
    rw [removeMin_red hs (le_refl _) (desat_mono hs0' (by norm_num))]
    exact hueInvT0 0
  · rcases le_or_lt h (1/3) with hB | hB
    · -- 0 < h ≤ 1/3 : first segment, green channel zeroed
      obtain ⟨hr, hg, hb⟩ := ramp1 (t := h * 3) (by linarith) (by linarith)
      rw [hr, hg, hb]
      rw [removeMin_green hs
        (not_le.mpr (lt_of_le_of_lt (min_le_left _ _) (desat_lt hs (by linarith))))
        (desat_mono hs0' (by linarith)) (desat_mono hs0' (by linarith))]
      exact hueInv1 h (by linarith) (by linarith)
    · rcases le_or_lt h (2/3) with hC | hC
      · rcases lt_or_eq_of_le hC with hC' | hC'
        · -- 1/3 < h < 2/3 : middle segment, blue channel zeroed
          obtain ⟨hr, hg, hb⟩ := ramp2 (t := h * 3) (by linarith) (by linarith)
          rw [hr, hg, hb]
          rw [removeMin_blue hs
            (not_le.mpr (lt_of_le_of_lt (min_le_right _ _) (desat_lt hs (by linarith))))
            (not_le.mpr (lt_of_le_of_lt (min_le_right _ _) (desat_lt hs (by linarith))))
            (desat_mono hs0' (by linarith)) (desat_mono hs0' (by linarith))]
          exact hueInv2 h (by linarith) (by linarith)
        · -- h = 2/3 : pure green, red channel zeroed first
          subst hC'
          obtain ⟨hr, hg, hb⟩ := ramp2 (t := (2:ℚ)/3 * 3) (by norm_num) (by norm_num)
          rw [hr, hg, hb]
          norm_num
          rw [removeMin_red hs (desat_mono hs0' (by norm_num)) (le_refl _)]
          exact hueInvT2 (2/3)
      · -- 2/3 < h < 1 : last segment, red channel zeroed
        obtain ⟨hr, hg, hb⟩ := ramp3 (t := h * 3) (by linarith) (by linarith)
        rw [hr, hg, hb]
        rw [removeMin_red hs (desat_mono hs0' (by linarith))
          (desat_mono hs0' (by linarith))]
        exact hueInv3 h (by linarith) (by linarith)

/-- C1 counterexample: at `(h, s, b) = (0, 1, 1)` — allowed by the claim's
bounds `s > 0.01`, `b > 0.01` — `HSBtoRGB` silently caps the brightness, so
the round trip returns `bright = 1/3`, off from the requested 1 by far more
than the claimed 1e-2 relative tolerance. -/
theorem c1_cap_breaks_roundtrip :
    (RGBtoHSB 0 (HSBtoRGB 0 1 1).red (HSBtoRGB 0 1 1).green
      (HSBtoRGB 0 1 1).blue).bright = 1/3 ∧ (1 : ℚ) - 1/3 > 1/100 := by
  have hcap : brightCapped 0 1 1 = 1/3 := by
    rw [brightCapped_zero_one, if_pos (by norm_num)]
  have hR : (HSBtoRGB 0 1 1).red = 0 := by
    show rDesat 0 1 * (brightCapped 0 1 1 * 3) = 0
    rw [rDesat_zero_one]
    ring
  have hG : (HSBtoRGB 0 1 1).green = 0 := by
    show gDesat 0 1 * (brightCapped 0 1 1 * 3) = 0
    rw [gDesat_zero_one]
    ring
  have hB : (HSBtoRGB 0 1 1).blue = 255 := by
    show bDesat 0 1 * (brightCapped 0 1 1 * 3) = 255
    rw [bDesat_zero_one, hcap]
    ring
  constructor
  · rw [hR, hG, hB]
    show brightOf 0 0 255 = 1/3
    norm_num [brightOf, MAX_RGB]
  · norm_num

/-- C1 amended: for every `h ∈ [0,1)`, `0.01 < s ≤ 1` and `0.01 < b ≤ 1/3`
(the brightness range on which the cap cannot engage; for larger `b` the
round trip returns the capped brightness instead), the round trip
`RGBtoHSB ∘ HSBtoRGB` reproduces `(h, s, b)` exactly — in particular within
the claimed 1e-2 relative tolerance. -/
theorem c1_roundtrip (h s b : ℚ) (hh0 : 0 ≤ h) (hh1 : h < 1)
    (hs0 : 1/100 < s) (hs1 : s ≤ 1) (hb0 : 1/100 < b) (hb1 : b ≤ 1/3) :
    RGBtoHSB h (HSBtoRGB h s b).red (HSBtoRGB h s b).green (HSBtoRGB h s b).blue
      = ⟨h, s, b⟩ := by
  have hspos : (0:ℚ) < s := by linarith
  have hbpos : (0:ℚ) < b := by linarith
  have hbne : b ≠ 0 := ne_of_gt hbpos
  have hs0' : (0:ℚ) ≤ s := le_of_lt hspos
  have ht : hsbT h = h * 3 := hsbT_eq hh0 (le_of_lt hh1)
  have ht0 : (0:ℚ) ≤ h * 3 := by linarith
  have ht3 : h * 3 ≤ 3 := by linarith
  obtain ⟨⟨hr0, hr1⟩, ⟨hg0, hg1⟩, ⟨hb0', hb1'⟩⟩ := pure_bounds ht0 ht3
  have hsum := pure_sum ht0 ht3
  have hdsum : desat s (pureRed (h * 3)) + desat s (pureGreen (h * 3)) +
      desat s (pureBlue (h * 3)) = 255 := desat_sum hsum
  have hMle : max (desat s (pureRed (h * 3)))
      (max (desat s (pureGreen (h * 3))) (desat s (pureBlue (h * 3)))) ≤ 255 :=
    max_le (desat_le_255 hs0' hs1 hr1)
      (max_le (desat_le_255 hs0' hs1 hg1) (desat_le_255 hs0' hs1 hb1'))
  have hM85 := max3_ge hdsum
  have hcap : brightCapped h s b = b := by
    unfold brightCapped rDesat gDesat bDesat
    rw [ht]
    exact capBright_noop hMle (by linarith) hb1
  have hR : (HSBtoRGB h s b).red = desat s (pureRed (h * 3)) * (b * 3) := by
    show rDesat h s * (brightCapped h s b * 3) = _
    rw [hcap]
    unfold rDesat
    rw [ht]
  have hG : (HSBtoRGB h s b).green = desat s (pureGreen (h * 3)) * (b * 3) := by
    show gDesat h s * (brightCapped h s b * 3) = _
    rw [hcap]
    unfold gDesat
    rw [ht]
  have hB : (HSBtoRGB h s b).blue = desat s (pureBlue (h * 3)) * (b * 3) := by
    show bDesat h s * (brightCapped h s b * 3) = _
    rw [hcap]
    unfold bDesat
    rw [ht]
  rw [hR, hG, hB]
  set R := desat s (pureRed (h * 3)) * (b * 3) with hRdef
  set G := desat s (pureGreen (h * 3)) * (b * 3) with hGdef
  set B := desat s (pureBlue (h * 3)) * (b * 3) with hBdef
  have hsumRGB : R + G + B = 765 * b := by
    rw [hRdef, hGdef, hBdef]
    linear_combination (b * 3) * hdsum
  have hsumpos : (0:ℚ) < R + G + B := by
    rw [hsumRGB]
    linarith
  have hbright : brightOf R G B = b := by
    unfold brightOf
    rw [hsumRGB, MAX_RGB]
    ring
  have hnR : normR R G B = desat s (pureRed (h * 3)) := by
    unfold normR normalize
    rw [if_pos hsumpos, hsumRGB, hRdef, MAX_RGB]
    field_simp
    ring
  have hnG : normG R G B = desat s (pureGreen (h * 3)) := by
    unfold normG normalize
    rw [if_pos hsumpos, hsumRGB, hGdef, MAX_RGB]
    field_simp
    ring
  have hnB : normB R G B = desat s (pureBlue (h * 3)) := by
    unfold normB normalize
    rw [if_pos hsumpos, hsumRGB, hBdef, MAX_RGB]
    field_simp
    ring
  have hmind : min (desat s (pureRed (h * 3)))
      (min (desat s (pureGreen (h * 3))) (desat s (pureBlue (h * 3)))) = desat s 0 := by
    rw [min_desat hs0', min_desat hs0', pure_min_zero ht0 ht3]
  have hsatval : satN R G B = s := by
    unfold satN satOf
    rw [hnR, hnG, hnB, hmind]
    unfold desat
    rw [MAX_RGB]
    ring
  have hguard : satN R G B > 0 ∧ brightOf R G B > 0 :=
    ⟨by rw [hsatval]; exact hspos, by rw [hbright]; exact hbpos⟩
  have hpof : puresOf R G B =
      removeMin s (desat s (pureRed (h * 3))) (desat s (pureGreen (h * 3)))
        (desat s (pureBlue (h * 3))) := by
    unfold puresOf
    rw [hsatval, hnR, hnG, hnB]
  simp only [RGBtoHSB]
  rw [if_pos hguard]
  simp only [HSBout.mk.injEq]
  refine ⟨?_, hsatval, hbright⟩
  rw [hpof, roundtrip_hue hh0 hh1 hspos]
  ring

/-- Witness for C1's amended statement at `(h, s, b) = (42/100, 55/100, 21/100)`. -/
theorem c1_witness :
    RGBtoHSB (42/100) (HSBtoRGB (42/100) (55/100) (21/100)).red
      (HSBtoRGB (42/100) (55/100) (21/100)).green
      (HSBtoRGB (42/100) (55/100) (21/100)).blue = ⟨42/100, 55/100, 21/100⟩ :=
  c1_roundtrip (42/100) (55/100) (21/100) (by norm_num) (by norm_num)
    (by norm_num) (by norm_num) (by norm_num) (by norm_num)

end LedStrip

